import Mathlib

/-!
Shallow embedding of the DFLIX_scraping backend core
(`src/backend/src/services/scraperService.js` and
`src/backend/src/services/authService.js`) together with theorems checking
the natural-language specification's claims against it.

JavaScript strings are modelled as Lean `String`/`List Char`; the handful of
regular expressions the code uses are implemented character by character with
the same leftmost-match, alternative-order semantics.  Timestamps are `Int`
milliseconds.  Nondeterministic id generation (`Date.now()`/`Math.random()`)
is modelled by an explicit `freshId : Nat → String` supply.
-/

namespace DFLIX

/-! ### JavaScript string primitives -/

/-- JavaScript `\w` character class: `[A-Za-z0-9_]`. -/
def isWordChar (c : Char) : Bool :=
  (('a' ≤ c ∧ c ≤ 'z') ∨ ('A' ≤ c ∧ c ≤ 'Z') ∨ ('0' ≤ c ∧ c ≤ '9') ∨ c = '_')

/-- JavaScript `\s` whitespace (ASCII part: space, tab, LF, VT, FF, CR). -/
def isJsWs (c : Char) : Bool :=
  (c = ' ' ∨ c = '\t' ∨ c = '\n' ∨ c = '\x0b' ∨ c = '\x0c' ∨ c = '\r')

/-- JavaScript `String.prototype.trim` (ASCII whitespace). -/
def jsTrim (s : String) : String :=
  ⟨((s.data.dropWhile isJsWs).reverse.dropWhile isJsWs).reverse⟩

/-- JS `s.toLowerCase()` (ASCII case mapping suffices for the scraped data). -/
def jsToLower (s : String) : String :=
  ⟨s.data.map Char.toLower⟩

/-- JS `s.replace(/[^\w\s]/g, '')`: keep word characters and whitespace. -/
def jsStripNonWord (s : String) : String :=
  ⟨s.data.filter (fun c => isWordChar c || isJsWs c)⟩

/-- Substring search on character lists (JavaScript `String.prototype.includes`). -/
def listContainsSub (pat : List Char) : List Char → Bool
  | [] => pat.isEmpty
  | c :: rest => pat.isPrefixOf (c :: rest) || listContainsSub pat rest

/-- JS `s.includes(sub)`. -/
def jsIncludes (s sub : String) : Bool :=
  listContainsSub sub.data s.data

/-- JS `s.startsWith(sub)`. -/
def jsStartsWith (s sub : String) : Bool :=
  sub.data.isPrefixOf s.data

/-- JS `s.split(sep).pop()` for a single-character separator: the segment after
the last occurrence of `sep` (the whole string when `sep` is absent). -/
def afterLastChar (sep : Char) (s : String) : String :=
  ⟨(s.data.reverse.takeWhile (fun c => c ≠ sep)).reverse⟩

/-! ### Data model

`Movie` mirrors the object literal built by `extractMovieData` /
`extractMovieFromFileLink`; JavaScript `null`/missing string fields are
modelled as `""` (they are only ever consumed through truthiness tests, which
agree on `null` and `""`).  `downloadUrls` entries carry the union of the
fields the three producers attach (`label` from listing/file-link records,
`filename` from `analyzeVideoFile`); absent fields are `""`.  The advisory
`mkvFeatures` metadata is elided: nothing in the core reads it back. -/

structure DownloadLink where
  url : String
  quality : String
  format : String
  label : String
  filename : String
deriving Repr, DecidableEq

structure Movie where
  id : String
  title : String
  poster : String
  year : String
  language : String
  detailUrl : String
  downloadUrls : List DownloadLink
  genres : List String
  rating : String
  size : String
  quality : String
  description : String
  source : String
deriving Repr, DecidableEq

/-! ### Deduplicator (`deduplicateMovies`) -/

/-- Normalization `movie.title?.toLowerCase().trim().replace(/[^\w\s]/g, '') || ''`. -/
def normalizedTitle (title : String) : String :=
  jsStripNonWord (jsTrim (jsToLower title))

/-- First download link's url, `movie.downloadUrls?.[0]?.url || ''`. -/
def firstDownloadUrl (m : Movie) : String :=
  (m.downloadUrls.head?.map (fun l => l.url)).getD ""

/-- The deduplication key
`` `${normalizedTitle}_${movie.year}_${firstUrl.split('/').pop()}` ``. -/
def dedupKey (m : Movie) : String :=
  normalizedTitle m.title ++ "_" ++ m.year ++ "_" ++ afterLastChar '/' (firstDownloadUrl m)

/-- The duplicate test of the link-union loop:
`existing.url === newUrl.url || (existing.quality === newUrl.quality && existing.format === newUrl.format)`. -/
def linkConflict (e n : DownloadLink) : Bool :=
  (e.url = n.url ∨ (e.quality = n.quality ∧ e.format = n.format))

/-- One step of the link-union loop: push `n` unless some existing link has
the same `url` or the same `(quality, format)` pair. -/
def addLink (links : List DownloadLink) (n : DownloadLink) : List DownloadLink :=
  if links.any (fun e => linkConflict e n) then
    links
  else
    links ++ [n]

/-- Merge a later record `m` into the canonical record `ex` with the same key:
union the download links and backfill empty scalar fields. -/
def mergeInto (ex m : Movie) : Movie :=
  let links := if m.downloadUrls.isEmpty then ex.downloadUrls else m.downloadUrls.foldl addLink ex.downloadUrls
  { ex with
    downloadUrls := links
    poster := if ex.poster = "" ∧ m.poster ≠ "" then m.poster else ex.poster
    description := if ex.description = "" ∧ m.description ≠ "" then m.description else ex.description
    detailUrl := if ex.detailUrl = "" ∧ m.detailUrl ≠ "" then m.detailUrl else ex.detailUrl
    genres := if ex.genres.isEmpty ∧ ¬ m.genres.isEmpty then m.genres else ex.genres
    rating := if ex.rating = "" ∧ m.rating ≠ "" then m.rating else ex.rating
    language := if ex.language = "" ∧ m.language ≠ "" then m.language else ex.language }

/-- Test `!movie.id || movie.id.startsWith('movie_0') || movie.id.startsWith('movie_1')`. -/
def idNeedsRegen (m : Movie) : Bool :=
  m.id = "" || jsStartsWith m.id "movie_0" || jsStartsWith m.id "movie_1"

/-- Replace an id that looks like an earlier-format id by a fresh one
(`movie_unique_${Date.now()}_${random}`, supplied by `freshId`). -/
def regenId (freshId : Nat → String) (n : Nat) (m : Movie) : Movie :=
  if idNeedsRegen m then { m with id := freshId n } else m

/-- Does the assoc list already hold this key (`seen.has(key)`)? -/
def hasKey (seen : List (String × Movie)) (k : String) : Bool :=
  seen.any (fun p => p.1 = k)

/-- Mutation `seen.get(key)` style: merge `m` into the entry with key `k`. -/
def updateAssoc (seen : List (String × Movie)) (k : String) (m : Movie) : List (String × Movie) :=
  seen.map (fun p => if p.1 = k then (p.1, mergeInto p.2 m) else p)

/-- The `deduplicateMovies` main loop.  The assoc list plays the role of the
insertion-ordered `Map` plus the parallel `uniqueMovies` array (whose elements
are the very `Map` values, mutated in place by later merges).  `n` counts the
fresh ids consumed so far. -/
def dedupGo (freshId : Nat → String) (n : Nat) (seen : List (String × Movie)) :
    List Movie → List (String × Movie)
  | [] => seen
  | m :: rest =>
    let k := dedupKey m
    if hasKey seen k then
      dedupGo freshId n (updateAssoc seen k m) rest
    else
      dedupGo freshId (n + 1) (seen ++ [(k, regenId freshId n m)]) rest

/-- Key/canonical-record pairs produced by `deduplicateMovies`, in insertion
order. -/
def dedupPairs (freshId : Nat → String) (movies : List Movie) : List (String × Movie) :=
  dedupGo freshId 0 [] movies

/-- Function `deduplicateMovies(movies)`: the returned `uniqueMovies` array. -/
def deduplicateMovies (freshId : Nat → String) (movies : List Movie) : List Movie :=
  (dedupPairs freshId movies).map (fun p => p.2)

/-! ### Session manager (`authService.js`) -/

/-- Outcome of one `authenticate()` recursion, flattened: how many attempts
ran, the backoff waits (ms) inserted between consecutive attempts, and whether
the final attempt verified successfully (`false` means the error propagates,
i.e. an AuthenticationError surfaces). -/
structure AuthRun where
  attempts : Nat
  waits : List Nat
  ok : Bool
deriving Repr, DecidableEq

/-- Operation `authenticate()` starting from retry counter `r`.  `verify r` tells
whether the attempt made with `authRetries = r` succeeds (login-page fetch,
demo-login discovery and the post-login verification folded into one oracle).
On failure the counter becomes `r + 1`; if that is still below
`config.scraping.maxRetries` the code waits `2000 * authRetries` ms and
recursively re-runs the whole sequence, otherwise it rethrows. -/
def authenticateFrom (maxRetries : Nat) (verify : Nat → Bool) (r : Nat) : AuthRun :=
  if verify r then
    { attempts := 1, waits := [], ok := true }
  else
    if _h : r + 1 < maxRetries then
      let rest := authenticateFrom maxRetries verify (r + 1)
      { attempts := rest.attempts + 1, waits := 2000 * (r + 1) :: rest.waits, ok := rest.ok }
    else
      { attempts := 1, waits := [], ok := false }
termination_by maxRetries - r

/-- Operation `authenticate()` as called on a fresh/reset service (`authRetries = 0`). -/
def authenticate (maxRetries : Nat) (verify : Nat → Bool) : AuthRun :=
  authenticateFrom maxRetries verify 0

/-- Does `ensureAuthenticated()` invoke `authenticate()`?  Mirrors
`!this.isAuthenticated || !this.lastAuthTime || this.lastAuthTime < oneHourAgo`
with `oneHourAgo = now - 60 * 60 * 1000` (times in ms; a `Date` object is
always truthy, so the second disjunct is exactly the `null` check). -/
def ensureAuthenticatedCalls (isAuthenticated : Bool) (lastAuthTime : Option Int) (now : Int) : Bool :=
  !isAuthenticated ||
    (match lastAuthTime with
     | none => true
     | some t => decide (t < now - 60 * 60 * 1000))

/-! ### `scrapeMovies()` (crawl, cache and the in-progress flag)

The network and the HTML pipeline are abstracted by a `CrawlEnv`: the outcome
of `ensureAuthenticated()`, the status of the primary listing fetch, and the
record lists the three discovery phases extract.  The essential aliasing of
the JavaScript is kept: `this.moviesCache = movies` stores the *array object*
that is subsequently extended by `movies.push(...)` and whose first-occurrence
elements `deduplicateMovies` mutates in place, so the cache finally holds the
concatenated list with canonical entries replaced by their merged versions. -/

structure ScraperState where
  moviesCache : List Movie
  lastScrapeTime : Option Int
  isScrapingInProgress : Bool
deriving Repr, DecidableEq

structure CrawlEnv where
  authOk : Bool
  authErrMsg : String
  mainStatus : Nat
  mainMovies : List Movie
  paginationMovies : List Movie
  directoryMovies : List Movie
  freshId : Nat → String
  now : Int

deriving instance DecidableEq for Except

/-- Result of one `scrapeMovies()` call: the service state afterwards, the
returned/thrown value, and whether any network fetch was started. -/
structure CrawlStep where
  state : ScraperState
  result : Except String (List Movie)
  fetched : Bool

/-- Lookup `seen.get(k)` after the dedup pass: the merged canonical record for `k`. -/
def canonicalFor (pairs : List (String × Movie)) (k : String) : Option Movie :=
  (pairs.find? (fun p => p.1 = k)).map (fun p => p.2)

/-- Contents of the shared `movies` array after `deduplicateMovies` ran over
it: the element at each first occurrence of a key is the (id-regenerated,
fully merged) canonical record, later duplicates are left as they were. -/
def cacheViewAux (pairs : List (String × Movie)) (seenKeys : List String) :
    List Movie → List Movie
  | [] => []
  | m :: rest =>
    let k := dedupKey m
    (if seenKeys.contains k then m else (canonicalFor pairs k).getD m) ::
      cacheViewAux pairs (k :: seenKeys) rest

/-- The final contents of the array stored in `this.moviesCache`. -/
def cacheAfterDedup (freshId : Nat → String) (movies : List Movie) : List Movie :=
  cacheViewAux (dedupPairs freshId movies) [] movies

/-- One un-retried pass of `scrapeMovies()`.  Phase errors inside pagination
and directory scraping are swallowed by the source (their `try`/`catch`
returns partial lists), so the only failures are the in-flight
authentication error and a non-200 primary listing response; both happen
before `this.moviesCache`/`this.lastScrapeTime` are assigned. -/
def scrapeMoviesOnce (s : ScraperState) (env : CrawlEnv) : CrawlStep :=
  if s.isScrapingInProgress then
    { state := s, result := Except.ok s.moviesCache, fetched := false }
  else if ¬ env.authOk then
    { state := { s with isScrapingInProgress := false }
      result := Except.error env.authErrMsg
      fetched := true }
  else if env.mainStatus ≠ 200 then
    { state := { s with isScrapingInProgress := false }
      result := Except.error ("Movies page returned status: " ++ toString env.mainStatus)
      fetched := true }
  else
    let allMovies := env.mainMovies ++ env.paginationMovies ++ env.directoryMovies
    let pairs := dedupGo env.freshId 0 [] allMovies
    { state :=
        { moviesCache := cacheViewAux pairs [] allMovies
          lastScrapeTime := some env.now
          isScrapingInProgress := false }
      result := Except.ok (pairs.map (fun p => p.2))
      fetched := true }

/-- Operation `scrapeMovies()` including the one-shot 401/403 retry of the `catch`
block (`authService.reset()` is part of the opaque session handling already
abstracted by `CrawlEnv.authOk`). -/
def scrapeMovies (s : ScraperState) (env retryEnv : CrawlEnv) : CrawlStep :=
  let once := scrapeMoviesOnce s env
  match once.result with
  | Except.error e =>
    if jsIncludes e "401" || jsIncludes e "403" then
      let again := scrapeMoviesOnce once.state retryEnv
      { again with fetched := once.fetched || again.fetched }
    else once
  | Except.ok _ => once

/-! ### Record extraction from filenames and URLs -/

/-- Does `(19|20)\d{2}` match at the head of the character list? -/
def matchYearCore (s : List Char) : Bool :=
  match s with
  | a :: b :: c :: d :: _ =>
    ((a = '1' ∧ b = '9') ∨ (a = '2' ∧ b = '0')) ∧ c.isDigit ∧ d.isDigit
  | _ => false

/-- Four decimal digits at the head of the list. -/
def digits4At (s : List Char) : Bool :=
  match s with
  | a :: b :: x :: d :: _ => a.isDigit ∧ b.isDigit ∧ x.isDigit ∧ d.isDigit
  | _ => false

/-- Four consecutive decimal digits occur somewhere in the list. -/
def hasFourDigitRun : List Char → Bool
  | [] => false
  | c :: rest => digits4At (c :: rest) || hasFourDigitRun rest

/-- The regex `.` (which stops at a line terminator) consuming greedily:
drop up to the next `'\n'`. -/
def dropToLineEnd (s : List Char) : List Char :=
  s.dropWhile (fun c => c ≠ '\n')

/-- JS `title.replace(/_(19|20)\d{2}_.*/, '')`: at the leftmost position where
an underscore is followed by a year and another underscore, delete the match
(which extends to the end of the line). -/
def replaceYearUnderscore : List Char → List Char
  | [] => []
  | c :: rest =>
    if c = '_' ∧ matchYearCore rest ∧ (rest.drop 4).head? = some '_' then
      dropToLineEnd (rest.drop 5)
    else
      c :: replaceYearUnderscore rest

/-- JS `title.replace(/\.(19|20)\d{2}\..*/, '')`. -/
def replaceYearDots : List Char → List Char
  | [] => []
  | c :: rest =>
    if c = '.' ∧ matchYearCore rest ∧ (rest.drop 4).head? = some '.' then
      dropToLineEnd (rest.drop 5)
    else
      c :: replaceYearDots rest

/-- JS `filename.replace(/\.[^.]+$/, '')`: drop a final `.ext` segment (the
last dot must have at least one character after it). -/
def stripExtension (s : List Char) : List Char :=
  let r := s.reverse
  match r.findIdx? (fun c => c = '.') with
  | none => s
  | some i => if i = 0 then s else s.take (s.length - 1 - i)

/-- JS `title.replace(/\s+/g, ' ')`: collapse whitespace runs into one space.
The flag records whether the previous character was whitespace. -/
def collapseWsAux : List Char → Bool → List Char
  | [], _ => []
  | c :: rest, prevWs =>
    if isJsWs c then
      if prevWs then collapseWsAux rest true else ' ' :: collapseWsAux rest true
    else
      c :: collapseWsAux rest false

/-- The title-cleaning pipeline of `extractTitleFromFilename` before the
`|| 'Unknown Movie'` fallback. -/
def titleCore (filename : String) : String :=
  let t1 := stripExtension filename.data
  let t2 := replaceYearUnderscore t1
  let t3 := replaceYearDots t2
  let t4 := t3.map (fun c => if c = '.' ∨ c = '_' then ' ' else c)
  let t5 := collapseWsAux t4 false
  jsTrim ⟨t5⟩

/-- Function `extractTitleFromFilename(filename)`. -/
def extractTitleFromFilename (filename : String) : String :=
  if titleCore filename = "" then "Unknown Movie" else titleCore filename

/-- First match of `(19|20)\d{2}` in the list, as matched text. -/
def findYearToken : List Char → Option String
  | [] => none
  | c :: rest =>
    if matchYearCore (c :: rest) then some ⟨(c :: rest).take 4⟩
    else findYearToken rest

/-- Function `extractYearFromFilename(filename)`: the first `(19|20)\d{2}` match, or
`new Date().getFullYear().toString()` (passed in as `currentYear`). -/
def extractYearFromFilename (currentYear : String) (filename : String) : String :=
  match findYearToken filename.data with
  | some y => y
  | none => currentYear

/-- Case-insensitive prefix test (pattern given as a lowercase-insensitive
literal alternative). -/
def isCIPrefix (pat : List Char) (s : List Char) : Bool :=
  (pat.map Char.toLower).isPrefixOf (s.map Char.toLower)

/-- At one position, try the regex alternatives in order and return the
matched slice of `s` (original case), JavaScript alternation semantics. -/
def firstAltAt (alts : List String) (s : List Char) : Option String :=
  match alts.find? (fun a => isCIPrefix a.data s) with
  | some a => some ⟨s.take a.data.length⟩
  | none => none

/-- Leftmost case-insensitive match of an alternative list, as matched text. -/
def regexFirstAlt (alts : List String) : List Char → Option String
  | [] => none
  | c :: rest =>
    match firstAltAt alts (c :: rest) with
    | some m => some m
    | none => regexFirstAlt alts rest

/-- The alternatives of
`/(720p|1080p|4K|2160p|HD|SD|CAM|TS|DVDRip|BRRip|BluRay)/i`. -/
def qualityAlts : List String :=
  ["720p", "1080p", "4K", "2160p", "HD", "SD", "CAM", "TS", "DVDRip", "BRRip", "BluRay"]

/-- Function `extractQualityFromFilename(filename)`. -/
def extractQualityFromFilename (filename : String) : String :=
  match regexFirstAlt qualityAlts filename.data with
  | some q => q
  | none => "Unknown"

/-- JavaScript `s.toUpperCase()` (ASCII). -/
def jsToUpper (s : String) : String :=
  ⟨s.data.map Char.toUpper⟩

/-- The video-extension vocabulary of `isDirectVideoFile`. -/
def videoExtensions : List String :=
  [".mp4", ".mkv", ".avi", ".webm", ".mov", ".wmv", ".m4v", ".flv", ".ogg"]

/-- Function `isDirectVideoFile(url)`: some known extension occurs as a substring of
the lowercased URL (`lowerUrl.includes(ext)`). -/
def isDirectVideoFile (url : String) : Bool :=
  videoExtensions.any (fun ext => listContainsSub ext.data (jsToLower url).data)

/-- Modelled from the spec: "the detail URL's path ends with a known video
extension".  The path is the URL up to a query/fragment delimiter and the
comparison is case-insensitive.  This is the spec's wording, kept separate so
it can be compared with `isDirectVideoFile`, the code's actual test. -/
def specPathEndsWithVideoExt (url : String) : Bool :=
  let path := url.data.takeWhile (fun c => c ≠ '?' ∧ c ≠ '#')
  videoExtensions.any (fun ext => ext.data.isSuffixOf (path.map Char.toLower))

/-- Function `analyzeVideoFile(url, movie)`: synthesize one download-link entry from a
direct media URL.  `movieQuality` is `movie.quality` (the `''` default of a
fresh record makes `movie.quality || 'Unknown'` yield `'Unknown'`). -/
def analyzeVideoFile (url : String) (movieQuality : String) : DownloadLink :=
  let filename := afterLastChar '/' url
  let fpart := afterLastChar '.' url
  let format := if fpart = "" then "UNKNOWN" else jsToUpper fpart
  let quality0 := if movieQuality = "" then "Unknown" else movieQuality
  let quality :=
    match regexFirstAlt qualityAlts filename.data with
    | some q => q
    | none => quality0
  { url := url, quality := quality, format := format, label := "", filename := filename }

/-- The direct-media tail of `extractMovieData` (lines 264-277): when the
detail URL is truthy and `isDirectVideoFile` accepts it, push the synthesized
link onto `movie.downloadUrls`. -/
def directMediaSynthesis (m : Movie) : Movie :=
  if m.detailUrl ≠ "" ∧ isDirectVideoFile m.detailUrl then
    { m with downloadUrls := m.downloadUrls ++ [analyzeVideoFile m.detailUrl m.quality] }
  else m

/-- Assignment `const filename = element.text().trim() || href`. -/
def fileLinkFilename (href text : String) : String :=
  if jsTrim text = "" then href else jsTrim text

/-- The `fullUrl` resolution of `extractMovieFromFileLink`. -/
def fileLinkFullUrl (baseUrl href : String) : String :=
  if jsStartsWith href "http" then href
  else baseUrl ++ (if jsStartsWith href "/" then "" else "/") ++ href

/-- JS `filename.split('.').pop()?.toUpperCase() || 'UNKNOWN'`. -/
def fileLinkFormat (filename : String) : String :=
  if afterLastChar '.' filename = "" then "UNKNOWN" else jsToUpper (afterLastChar '.' filename)

/-- The record literal `extractMovieFromFileLink` returns (given that the
href/filename guard passed). -/
def fileLinkMovie (uid currentYear baseUrl href text : String) : Movie :=
  let filename := fileLinkFilename href text
  let title := extractTitleFromFilename filename
  let year := extractYearFromFilename currentYear filename
  let quality := extractQualityFromFilename filename
  let format := fileLinkFormat filename
  { id := uid
    title := title
    poster := ""
    year := year
    language := ""
    detailUrl := ""
    downloadUrls :=
      [{ url := fileLinkFullUrl baseUrl href, quality := quality, format := jsToLower format
         label := quality ++ " " ++ format, filename := "" }]
    genres := []
    rating := ""
    size := ""
    quality := quality
    description := title ++ " (" ++ year ++ ") - " ++ quality ++ " " ++ format
    source := "directory" }

/-- Function `extractMovieFromFileLink($, element, baseUrl)`.  `uid` stands for the
generated `movie_dir_...` id and `currentYear` for
`new Date().getFullYear().toString()`. -/
def extractMovieFromFileLink (uid currentYear baseUrl href text : String) : Option Movie :=
  if href = "" ∨ fileLinkFilename href text = "" then none
  else some (fileLinkMovie uid currentYear baseUrl href text)

/-! ### Directory walker (`scrapeDirectoryStructure`), one probe page -/

/-- An anchor of a fetched directory page: its `href` attribute and its text. -/
structure ALink where
  href : String
  text : String
deriving Repr, DecidableEq

/-- A file link per the selector `a[href*=".mkv"], a[href*=".mp4"], a[href*=".avi"]`. -/
def isFileLink (l : ALink) : Bool :=
  jsIncludes l.href ".mkv" || jsIncludes l.href ".mp4" || jsIncludes l.href ".avi"

/-- A directory link: matched by `a[href*="/"]` and kept by the filter
`href && !href.includes('.') && href !== '../'`. -/
def isDirLink (l : ALink) : Bool :=
  jsIncludes l.href "/" && !jsIncludes l.href "." && l.href ≠ "../"

/-- Modelled from the spec: a "directory-like" link is one whose href has no
dot and is not the parent-relative `../` (the spec does not require a slash).
Kept separate so the claim's class can be compared with `isDirLink`. -/
def specDirLike (l : ALink) : Bool :=
  !jsIncludes l.href "." && l.href ≠ "../"

/-- The subdirectory hrefs one probe recurses into: only when
`0 < dirLinks.length < 50`, only the first `min(length, 10)` of them, and
only those passing `subDir && !subDir.includes('..')`. -/
def probeSubdirHrefs (links : List ALink) : List String :=
  let dirLinks := links.filter isDirLink
  if 0 < dirLinks.length ∧ dirLinks.length < 50 then
    ((dirLinks.take 10).map (fun l => l.href)).filter
      (fun h => h ≠ "" && !jsIncludes h "..")
  else []

/-- Records harvested from one page's file links
(`fileLinks.each(... extractMovieFromFileLink ...)`, keeping only records
with a truthy title — which `extractMovieFromFileLink` always produces). -/
def pageFileMovies (uid currentYear pageUrl : String) (page : List ALink) : List Movie :=
  (page.filter isFileLink).filterMap
    (fun l => extractMovieFromFileLink uid currentYear pageUrl l.href l.text)

/-- One top-level directory probe: collect this page's file links, then visit
the bounded subdirectory hrefs and collect only their file links — no
further recursion (subpages are consulted through `fetchSub` and contribute
`pageFileMovies` only). -/
def probeDirectory (fetchSub : String → Option (List ALink))
    (uid currentYear fullUrl : String) (page : List ALink) : List Movie :=
  pageFileMovies uid currentYear fullUrl page ++
    (probeSubdirHrefs page).flatMap
      (fun h =>
        let subUrl := fullUrl ++ "/" ++ h
        match fetchSub subUrl with
        | some subPage => pageFileMovies uid currentYear subUrl subPage
        | none => [])

/-! ### Specification-side notions used to state the claims -/

/-- Membership of a key in a key list, as the `Bool` the code's branches
consume. -/
def keyMem (ks : List String) (k : String) : Bool :=
  ks.any (fun x => x = k)

/-- First-occurrence duplicate removal on key lists, avoiding the keys in
`seen`; `eraseDupsAux [] l` is the sequence of keys in the order each first
occurred in `l`. -/
def eraseDupsAux (seen : List String) : List String → List String
  | [] => []
  | k :: ks =>
    if keyMem seen k then eraseDupsAux seen ks
    else k :: eraseDupsAux (k :: seen) ks

/-- Keys of a list in first-seen order, each once. -/
def firstSeenKeys (l : List String) : List String :=
  eraseDupsAux [] l

/-- The spec's download-link invariant: no two entries share a `url` and no
two entries share a `(quality, format)` pair. -/
def LinksClean (ls : List DownloadLink) : Prop :=
  ls.Pairwise (fun a b => a.url ≠ b.url ∧ ¬(a.quality = b.quality ∧ a.format = b.format))

instance (ls : List DownloadLink) : Decidable (LinksClean ls) := by
  unfold LinksClean
  exact List.instDecidablePairwise ls

/-! ### Concrete sample data for the counterexamples and witnesses -/

/-- A deterministic stand-in for the `movie_unique_...` id generator. -/
def sampleFreshId : Nat → String := fun n => "movie_unique_t" ++ toString n

/-- A listing-extracted record with every heuristic field empty. -/
def emptyMovie : Movie :=
  { id := "movie_main_5_t", title := "", poster := "", year := "", language := ""
    detailUrl := "", downloadUrls := [], genres := [], rating := "", size := ""
    quality := "", description := "", source := "" }

/-- A single download link with the given url/quality/format. -/
def mkLink (url quality format : String) : DownloadLink :=
  { url := url, quality := quality, format := format, label := "", filename := "" }

/-- The spec's first synthetic record: title `Alpha`, year `2021`, one link
`.../alpha_hd.mp4`. -/
def alphaRecord : Movie :=
  { emptyMovie with title := "Alpha", year := "2021"
                    downloadUrls := [mkLink ".../alpha_hd.mp4" "720p" "mp4"] }

/-- The spec's second synthetic record: title `alpha!`, year `2021`, one link
`.../ALPHA_HD.mp4`. -/
def alphaBangRecord : Movie :=
  { emptyMovie with id := "movie_main_6_t", title := "alpha!", year := "2021"
                    downloadUrls := [mkLink ".../ALPHA_HD.mp4" "1080p" "mp4"] }

/-- Like `alphaBangRecord` but with a first link whose basename agrees with
`alphaRecord`'s letter for letter (only the directory differs). -/
def alphaMirrorRecord : Movie :=
  { emptyMovie with id := "movie_main_7_t", title := "alpha!", year := "2021"
                    downloadUrls := [mkLink "http://mirror/alpha_hd.mp4" "1080p" "mp4"] }

/-- A record whose own `downloadUrls` already contains the same link twice
(as detail-page enrichment can produce when the page repeats an anchor). -/
def dupLinkMovie : Movie :=
  { emptyMovie with title := "Gamma", year := "2022"
                    downloadUrls := [mkLink "http://h/g.mp4" "720p" "MP4",
                                     mkLink "http://h/g.mp4" "720p" "MP4"] }

/-- A listing node whose detail URL merely *contains* `.mp4` while its path
ends in `.html`. -/
def htmlWrappedMovie : Movie :=
  { emptyMovie with title := "Delta", detailUrl := "http://h/movie.mp4.html" }

/-- A listing node whose detail URL is a direct `.mp4` file. -/
def directMp4Movie : Movie :=
  { emptyMovie with title := "Epsilon", detailUrl := "http://h/a.mp4" }

/-- A directory probe page with 8 slash-style subdirectory hrefs and 52
slashless, dot-free hrefs: 60 spec-directory-like links in total, of which
the code's `a[href*="/"]` selector retains only 8. -/
def broadDirPage : List ALink :=
  (List.range 8).map (fun i => { href := "a" ++ toString i ++ "/", text := "" }) ++
    (List.range 52).map (fun i => { href := "d" ++ toString i, text := "" })

/-- A directory probe page listing 52 slash-style subdirectory hrefs. -/
def manyDirPage : List ALink :=
  (List.range 52).map (fun i => { href := "s" ++ toString i ++ "/", text := "" })

/-- A fresh scraper service state: empty cache, no timestamp, idle. -/
def freshState : ScraperState :=
  { moviesCache := [], lastScrapeTime := none, isScrapingInProgress := false }

/-- A scraper state with a crawl already in flight. -/
def busyState : ScraperState :=
  { moviesCache := [alphaRecord], lastScrapeTime := some 11, isScrapingInProgress := true }

/-- A crawl whose main page yields one record and whose directory probing
rediscovers the same content (same deduplication key). -/
def dupEnv : CrawlEnv :=
  { authOk := true, authErrMsg := "", mainStatus := 200
    mainMovies := [alphaRecord]
    paginationMovies := []
    directoryMovies := [{ alphaRecord with id := "movie_dir_t", source := "directory" }]
    freshId := sampleFreshId, now := 42 }

/-! ## Claim theorems -/

/-- Helper: the retry recursion of `authenticate()` makes at most
`maxRetries - r` attempts (at least one attempt always runs). -/
theorem authAttemptsBounded (k m : Nat) (v : Nat → Bool) :
    ∀ r, m - r ≤ k → (authenticateFrom m v r).attempts ≤ max (m - r) 1 := by
  induction k with
  | zero =>
    intro r h
    rw [authenticateFrom.eq_def]
    split
    · simp
    · split
      · omega
      · simp
  | succ k ih =>
    intro r h
    rw [authenticateFrom.eq_def]
    split
    · simp
    · split
      · rename_i hlt
        have hb := ih (r + 1) (by omega)
        rw [Nat.max_eq_left (by omega : 1 ≤ m - (r + 1))] at hb
        rw [Nat.max_eq_left (by omega : 1 ≤ m - r)]
        simp only []
        omega
      · simp

/-- C2, counterexample.  The two synthetic records of the claim do *not*
compute equal deduplication keys — the basename of the first download link
enters the key with its original case — and the Deduplicator keeps them as
two separate records instead of collapsing them into one. -/
theorem C2_counterexample :
    dedupKey alphaRecord ≠ dedupKey alphaBangRecord ∧
    (deduplicateMovies sampleFreshId [alphaRecord, alphaBangRecord]).length = 2 := by
  constructor
  · decide
  · decide

/-- C2, amended.  `normalize(title)` does lowercase, trim and strip
non-word characters, so both titles normalize to `alpha`; but the basename of
the first download link is used verbatim, so `alpha_hd.mp4` and
`ALPHA_HD.mp4` give the different keys `alpha_2021_alpha_hd.mp4` and
`alpha_2021_ALPHA_HD.mp4` and the records stay separate, each keeping only
its own URL.  When the basenames agree letter for letter the two records do
collapse into one canonical record whose `downloadLinks` contains both URLs. -/
theorem C2_amended :
    dedupKey alphaRecord = "alpha_2021_alpha_hd.mp4" ∧
    dedupKey alphaBangRecord = "alpha_2021_ALPHA_HD.mp4" ∧
    (deduplicateMovies sampleFreshId [alphaRecord, alphaBangRecord]).map
        (fun m => m.downloadUrls.map (fun l => l.url)) =
      [[".../alpha_hd.mp4"], [".../ALPHA_HD.mp4"]] ∧
    dedupKey alphaRecord = dedupKey alphaMirrorRecord ∧
    (deduplicateMovies sampleFreshId [alphaRecord, alphaMirrorRecord]).map
        (fun m => m.downloadUrls.map (fun l => l.url)) =
      [[".../alpha_hd.mp4", "http://mirror/alpha_hd.mp4"]] := by
  refine ⟨by decide, by decide, by decide, by decide, by decide⟩

/-- C3.  With `maxRetries = 3` and post-login verification failing on every
attempt, `authenticate()` performs exactly 3 attempts with linear-backoff
waits of 2000 ms and 4000 ms between consecutive attempts, and ends with the
error propagating (`ok := false`, the AuthenticationError); and in general
the number of attempts is bounded, so the retry loop never runs forever. -/
theorem C3_retry_bound :
    authenticate 3 (fun _ => false) = { attempts := 3, waits := [2000, 4000], ok := false } ∧
    ∀ (maxRetries : Nat) (verify : Nat → Bool) (r : Nat),
      (authenticateFrom maxRetries verify r).attempts ≤ max (maxRetries - r) 1 := by
  constructor
  · simp [authenticate, authenticateFrom.eq_def]
  · intro maxRetries verify r
    exact authAttemptsBounded (maxRetries - r) maxRetries verify r (Nat.le_refl _)

/-- C4.  `ensureAuthenticated()` invokes `authenticate()` exactly when the
session is not authenticated, `lastAuthTime` is unset, or `lastAuthTime` is
more than 60 minutes before `now`; with `lastAuthTime` 61 minutes ago it
re-authenticates, and 30 minutes ago (authenticated) it is a no-op. -/
theorem C4_session_expiry :
    (∀ (isAuthenticated : Bool) (lastAuthTime : Option Int) (now : Int),
        ensureAuthenticatedCalls isAuthenticated lastAuthTime now = true ↔
          (isAuthenticated = false ∨ lastAuthTime = none ∨
            ∃ t, lastAuthTime = some t ∧ now - t > 60 * 60 * 1000)) ∧
    ensureAuthenticatedCalls true (some (-(61 * 60 * 1000))) 0 = true ∧
    ensureAuthenticatedCalls true (some (-(30 * 60 * 1000))) 0 = false := by
  refine ⟨?_, by decide, by decide⟩
  intro isAuthenticated lastAuthTime now
  cases isAuthenticated <;> cases lastAuthTime
  all_goals simp [ensureAuthenticatedCalls]
  all_goals omega

/-- C9.  While a crawl is in flight (`isScrapingInProgress`), any further
`scrapeMovies()` call starts no fetch at all and immediately returns the
current cached snapshot, leaving the state untouched — so only the one
in-flight crawl performs a fetch sequence. -/
theorem C9_at_most_one_crawl (s : ScraperState) (env retryEnv : CrawlEnv)
    (h : s.isScrapingInProgress = true) :
    scrapeMovies s env retryEnv =
      { state := s, result := Except.ok s.moviesCache, fetched := false } := by
  simp [scrapeMovies, scrapeMoviesOnce, h]

/-- Witness for C9 at a concrete in-flight state. -/
theorem C9_at_most_one_crawl_witness :
    busyState.isScrapingInProgress = true ∧
    scrapeMovies busyState dupEnv dupEnv =
      { state := busyState, result := Except.ok [alphaRecord], fetched := false } :=
  ⟨rfl, C9_at_most_one_crawl busyState dupEnv dupEnv rfl⟩

/-- C1, the failing input evaluated.  A successful crawl whose directory
phase rediscovers the main-page record leaves `moviesCache` holding the
2-element concatenated array (the duplicate still in it, because
`this.moviesCache = movies` is executed before pagination/directory pushes
and before `deduplicateMovies`), while `scrapeMovies()` returns the
1-element deduplicated list; the cached snapshot is therefore *not* the
returned merged result.  The timestamp is set nonetheless. -/
theorem C1_cache_divergence :
    (scrapeMovies freshState dupEnv dupEnv).state.moviesCache.length = 2 ∧
    (scrapeMovies freshState dupEnv dupEnv).result.map List.length = Except.ok 1 ∧
    (scrapeMovies freshState dupEnv dupEnv).result ≠
      Except.ok (scrapeMovies freshState dupEnv dupEnv).state.moviesCache ∧
    (scrapeMovies freshState dupEnv dupEnv).state.lastScrapeTime = some 42 := by
  refine ⟨by decide, by decide, by decide, by decide⟩

/-- C6, counterexample.  For a record whose own `downloadLinks` already
repeats an entry, deduplicating `[r, r]` yields one canonical record whose
`downloadLinks` still contains the repeated entry — merging skips the
duplicate copies but never cleans the first-seen list itself, so the claimed
"no duplicate entries" fails. -/
theorem C6_counterexample :
    (deduplicateMovies sampleFreshId [dupLinkMovie, dupLinkMovie]).map
        (fun m => m.downloadUrls) =
      [[mkLink "http://h/g.mp4" "720p" "MP4", mkLink "http://h/g.mp4" "720p" "MP4"]] ∧
    ¬ ([mkLink "http://h/g.mp4" "720p" "MP4",
        mkLink "http://h/g.mp4" "720p" "MP4"] : List DownloadLink).Nodup := by
  refine ⟨by decide, by decide⟩

/-- C7, counterexample.  `isDirectVideoFile` tests
`url.toLowerCase().includes(ext)`, not a path-suffix: for the detail URL
`http://h/movie.mp4.html` — whose path ends with `.html`, not a video
extension — extraction still synthesizes a download link. -/
theorem C7_counterexample :
    specPathEndsWithVideoExt htmlWrappedMovie.detailUrl = false ∧
    (directMediaSynthesis htmlWrappedMovie).downloadUrls.length = 1 := by
  refine ⟨by decide, by decide⟩

/-- C8, counterexample.  A probe page with 60 links that are directory-like
in the claim's sense (no dot, not `../`) — 8 of them with a slash, 52
without — must, per the claim, trigger no recursion (60 ≥ 50); but the code
counts only hrefs containing a slash (`a[href*="/"]`), finds 8 < 50, and
recurses into them. -/
theorem C8_counterexample :
    50 ≤ (broadDirPage.filter specDirLike).length ∧
    probeSubdirHrefs broadDirPage ≠ [] := by
  refine ⟨by decide, by decide⟩

/-- Helper: a `(19|20)\d{2}` match begins with four decimal digits. -/
theorem digits4OfMatchYear (l : List Char) (h : matchYearCore l = true) :
    digits4At l = true := by
  match l with
  | [] => simp [matchYearCore] at h
  | [a] => simp [matchYearCore] at h
  | [a, b] => simp [matchYearCore] at h
  | [a, b, x] => simp [matchYearCore] at h
  | a :: b :: x :: d :: t =>
    simp [matchYearCore] at h
    obtain ⟨h1 | h1, h2, h3⟩ := h
    · obtain ⟨rfl, rfl⟩ := h1
      simp [digits4At, h2, h3]
    · obtain ⟨rfl, rfl⟩ := h1
      simp [digits4At, h2, h3]

/-- Helper: without four consecutive digits there is no year token. -/
theorem findYearTokenNone (l : List Char) (h : hasFourDigitRun l = false) :
    findYearToken l = none := by
  induction l with
  | nil => rfl
  | cons c rest ih =>
    rw [hasFourDigitRun] at h
    rw [Bool.or_eq_false_iff] at h
    rw [findYearToken]
    have hm : matchYearCore (c :: rest) = false := by
      cases hmc : matchYearCore (c :: rest) with
      | false => rfl
      | true => rw [digits4OfMatchYear _ hmc] at h; simp at h
    rw [hm]
    simp
    exact ih h.2

/-- Helper: a found year token is a nonempty string. -/
theorem findYearTokenNonempty (l : List Char) (y : String)
    (h : findYearToken l = some y) : y ≠ "" := by
  induction l with
  | nil => simp [findYearToken] at h
  | cons c rest ih =>
    rw [findYearToken] at h
    cases hmc : matchYearCore (c :: rest) with
    | true =>
      rw [hmc] at h
      simp at h
      intro hemp
      rw [← h] at hemp
      have := congrArg String.data hemp
      simp at this
    | false =>
      rw [hmc] at h
      simp at h
      exact ih h

/-- Helper: `extractYearFromFilename` never returns an empty year when the
current-year fallback is nonempty. -/
theorem extractYearNonempty (cy f : String) (hcy : cy ≠ "") :
    extractYearFromFilename cy f ≠ "" := by
  unfold extractYearFromFilename
  cases hft : findYearToken f.data with
  | none => simpa using hcy
  | some y => simpa using findYearTokenNonempty f.data y hft

/-- C10.  For every non-empty href (hence non-empty filename) the
directory-probe extractor emits a record; its title falls back to the
constant `Unknown Movie` when the cleaning pipeline strips the filename to
nothing, and its year falls back to the current calendar year when the
filename has no 4-digit year token — so the record is always fully
populated (non-empty title and year). -/
theorem C10_filename_fallbacks (uid currentYear baseUrl href text : String)
    (hhref : href ≠ "") (hcy : currentYear ≠ "") :
    ∃ m, extractMovieFromFileLink uid currentYear baseUrl href text = some m ∧
      m.title ≠ "" ∧ m.year ≠ "" ∧
      (titleCore (fileLinkFilename href text) = "" → m.title = "Unknown Movie") ∧
      (hasFourDigitRun (fileLinkFilename href text).data = false → m.year = currentYear) := by
  have hfn : fileLinkFilename href text ≠ "" := by
    unfold fileLinkFilename
    split
    · exact hhref
    · next hht => exact hht
  have hcond : ¬ (href = "" ∨ fileLinkFilename href text = "") := by
    push_neg
    exact ⟨hhref, hfn⟩
  refine ⟨fileLinkMovie uid currentYear baseUrl href text, ?_, ?_, ?_, ?_, ?_⟩
  · unfold extractMovieFromFileLink
    rw [if_neg hcond]
  · simp only [fileLinkMovie]
    unfold extractTitleFromFilename
    split
    · decide
    · next hne => exact hne
  · simp only [fileLinkMovie]
    exact extractYearNonempty currentYear (fileLinkFilename href text) hcy
  · intro hempty
    simp only [fileLinkMovie]
    unfold extractTitleFromFilename
    rw [if_pos hempty]
  · intro hrun
    simp only [fileLinkMovie]
    unfold extractYearFromFilename
    rw [findYearTokenNone _ hrun]

/-- Witness for C10 on a concrete directory file link. -/
theorem C10_filename_fallbacks_witness :
    ∃ m, extractMovieFromFileLink "movie_dir_w" "2026" "http://h/Movies"
        "NoYearClip.mkv" "" = some m ∧
      m.title ≠ "" ∧ m.year ≠ "" ∧
      (titleCore (fileLinkFilename "NoYearClip.mkv" "") = "" → m.title = "Unknown Movie") ∧
      (hasFourDigitRun (fileLinkFilename "NoYearClip.mkv" "").data = false →
        m.year = "2026") :=
  C10_filename_fallbacks "movie_dir_w" "2026" "http://h/Movies" "NoYearClip.mkv" ""
    (by decide) (by decide)

/-- Helper: folding the link-union step over links that are all already
present leaves the accumulator unchanged. -/
theorem foldlAddLinkSelf (base : List DownloadLink) :
    ∀ ns : List DownloadLink, (∀ x ∈ ns, x ∈ base) → ns.foldl addLink base = base := by
  intro ns
  induction ns with
  | nil => intro _; rfl
  | cons n rest ih =>
    intro h
    have hn : n ∈ base := h n (List.mem_cons_self n rest)
    have hc : base.any (fun e => linkConflict e n) = true :=
      List.any_eq_true.mpr ⟨n, hn, by simp [linkConflict]⟩
    have hstep : addLink base n = base := by
      unfold addLink
      rw [if_pos hc]
    rw [List.foldl_cons, hstep]
    exact ih (fun x hx => h x (List.mem_cons_of_mem n hx))

/-- Helper: merging a record into an identical record (up to id) changes
nothing. -/
theorem mergeIntoSelf (r : Movie) (i : String) :
    mergeInto { r with id := i } r = { r with id := i } := by
  unfold mergeInto
  rw [foldlAddLinkSelf r.downloadUrls r.downloadUrls (fun x hx => hx)]
  simp

/-- C6, amended.  Deduplicating `[r, r]` yields exactly one canonical record
whose `downloadLinks` equal `r`'s — every link of the copy is skipped as a
url-duplicate, so no *new* duplicate entries appear (they are duplicate-free
whenever `r`'s were) — and whose scalar fields (and title, year) are
unchanged; only the opaque id may be regenerated. -/
theorem C6_amended (f : Nat → String) (r : Movie) :
    (deduplicateMovies f [r, r]).map
        (fun m => (m.title, m.year, m.downloadUrls, m.poster, m.description,
          m.detailUrl, m.genres, m.rating, m.language)) =
      [(r.title, r.year, r.downloadUrls, r.poster, r.description,
        r.detailUrl, r.genres, r.rating, r.language)] := by
  have hcan : mergeInto (regenId f 0 r) r = regenId f 0 r := by
    unfold regenId
    split
    · exact mergeIntoSelf r (f 0)
    · exact mergeIntoSelf r r.id
  simp only [deduplicateMovies, dedupPairs, dedupGo, hasKey, updateAssoc,
    List.any_nil, List.any_cons, List.map_cons, List.map_nil, decide_eq_true_eq]
  simp only [Bool.false_eq_true, if_false, if_true, reduceIte]
  simp [hcan]
  cases hreg : idNeedsRegen r
  · simp [regenId, hreg]
  · simp [regenId, hreg]

/-- Helper: the character-level substring search agrees with `List.IsInfix`. -/
theorem listContainsSubCorrect (pat : List Char) : ∀ l : List Char,
    listContainsSub pat l = true ↔ pat <:+: l := by
  intro l
  induction l with
  | nil =>
    simp [listContainsSub, List.isEmpty_iff]
  | cons c rest ih =>
    rw [listContainsSub]
    rw [Bool.or_eq_true]
    rw [ List.isPrefixOf_iff_prefix]
    rw [ih]
    exact Iff.symm List.infix_cons_iff

/-- C7, amended.  Extraction synthesizes the single download link exactly
when the detail URL is non-empty and its lowercased text *contains* a known
video-extension substring (`isDirectVideoFile`); a URL whose path ends with
a video extension always satisfies this, but so do URLs like
`.../movie.mp4.html`, so "ends with" understates the trigger. -/
theorem C7_amended (m : Movie) (url : String) :
    (m.detailUrl ≠ "" ∧ isDirectVideoFile m.detailUrl = true →
      (directMediaSynthesis m).downloadUrls =
        m.downloadUrls ++ [analyzeVideoFile m.detailUrl m.quality]) ∧
    (¬ (m.detailUrl ≠ "" ∧ isDirectVideoFile m.detailUrl = true) →
      directMediaSynthesis m = m) ∧
    (specPathEndsWithVideoExt url = true → isDirectVideoFile url = true) := by
  refine ⟨?_, ?_, ?_⟩
  · intro h
    unfold directMediaSynthesis
    rw [if_pos h]
  · intro h
    unfold directMediaSynthesis
    rw [if_neg h]
  · intro h
    unfold specPathEndsWithVideoExt at h
    rw [List.any_eq_true] at h
    obtain ⟨ext, hmem, hsuf⟩ := h
    rw [List.isSuffixOf_iff_suffix] at hsuf
    unfold isDirectVideoFile
    rw [List.any_eq_true]
    refine ⟨ext, hmem, ?_⟩
    have hpath := List.takeWhile_prefix (l := url.data) (fun c => decide (c ≠ '?' ∧ c ≠ '#'))
    have hlow := List.IsPrefix.map Char.toLower hpath
    have hinf : ext.data <:+: (url.data.map Char.toLower) :=
      List.IsInfix.trans ( List.IsSuffix.isInfix hsuf) ( List.IsPrefix.isInfix hlow)
    rw [listContainsSubCorrect]
    exact hinf

/-- Witness for C7 on a concrete direct `.mp4` detail URL. -/
theorem C7_amended_witness :
    (directMediaSynthesis directMp4Movie).downloadUrls =
      directMp4Movie.downloadUrls ++
        [analyzeVideoFile directMp4Movie.detailUrl directMp4Movie.quality] ∧
    isDirectVideoFile "http://h/a.mp4" = true :=
  ⟨(C7_amended directMp4Movie "http://h/a.mp4").1 ⟨by decide, by decide⟩,
   (C7_amended directMp4Movie "http://h/a.mp4").2.2 (by decide)⟩

/-- C8, amended.  With "directory link" as the code implements it (href
containing a slash, no dot — the `../` exclusion is subsumed), a probe page
with 50 or more such links recurses into none of them; otherwise it recurses
exactly one level into at most the first 10 of them (so 8 such links mean at
most those 8); subdirectory pages contribute file-link records only, with no
further recursion (`probeDirectory` consults them through `pageFileMovies`
alone). -/
theorem C8_amended (links : List ALink) :
    (50 ≤ (links.filter isDirLink).length → probeSubdirHrefs links = []) ∧
    (probeSubdirHrefs links).length ≤ 10 ∧
    (probeSubdirHrefs links).length ≤ (links.filter isDirLink).length ∧
    (∀ h ∈ probeSubdirHrefs links,
      h ∈ ((links.filter isDirLink).take 10).map (fun l => l.href)) := by
  refine ⟨?_, ?_, ?_, ?_⟩
  · intro h50
    unfold probeSubdirHrefs
    rw [if_neg (fun hc => by omega)]
  · simp only [probeSubdirHrefs]
    split
    · refine le_trans (List.length_filter_le _ _) ?_
      rw [List.length_map, List.length_take]
      exact Nat.min_le_left _ _
    · simp
  · simp only [probeSubdirHrefs]
    split
    · refine le_trans (List.length_filter_le _ _) ?_
      rw [List.length_map, List.length_take]
      exact Nat.min_le_right _ _
    · simp
  · intro h hmem
    simp only [probeSubdirHrefs] at hmem
    split at hmem
    · exact List.mem_of_mem_filter hmem
    · simp at hmem

/-- Witness for C8 on a page with 52 slash-style directory links. -/
theorem C8_amended_witness :
    probeSubdirHrefs manyDirPage = [] ∧ (probeSubdirHrefs manyDirPage).length ≤ 10 :=
  ⟨(C8_amended manyDirPage).1 (by decide), (C8_amended manyDirPage).2.1⟩

/-- C5, counterexample.  A single input record whose own `downloadLinks`
already repeats an entry passes through the Deduplicator unchanged, so the
output violates the claimed "no two entries with identical url" invariant. -/
theorem C5_counterexample :
    (deduplicateMovies sampleFreshId [dupLinkMovie]).map (fun m => m.downloadUrls) =
      [[mkLink "http://h/g.mp4" "720p" "MP4", mkLink "http://h/g.mp4" "720p" "MP4"]] ∧
    ¬ (∀ m ∈ deduplicateMovies sampleFreshId [dupLinkMovie], LinksClean m.downloadUrls) := by
  refine ⟨by decide, by decide⟩

/-- Helper: the map's key test equals membership in the stored key list. -/
theorem hasKeyEqKeyMem : ∀ (seen : List (String × Movie)) (k : String),
    hasKey seen k = keyMem (seen.map Prod.fst) k := by
  intro seen k
  induction seen with
  | nil => rfl
  | cons p rest ih =>
    simp only [hasKey, keyMem, List.map_cons, List.any_cons] at *
    rw [ih]

/-- Helper: appending a key at the end is membership-equivalent to consing it. -/
theorem keyMemSnoc (l : List String) (k x : String) :
    keyMem (l ++ [k]) x = keyMem (k :: l) x := by
  simp [keyMem, List.any_append, List.any_cons, Bool.or_comm]

/-- Helper: consing the same key preserves membership-equivalence of seeds. -/
theorem keyMemConsCongr (s1 s2 : List String) (k : String)
    (h : ∀ x, keyMem s1 x = keyMem s2 x) (x : String) :
    keyMem (k :: s1) x = keyMem (k :: s2) x := by
  simp only [keyMem, List.any_cons] at *
  rw [h x]

/-- Helper: `eraseDupsAux` only looks at the seed through membership. -/
theorem eraseDupsCongr : ∀ (ks s1 s2 : List String),
    (∀ x, keyMem s1 x = keyMem s2 x) → eraseDupsAux s1 ks = eraseDupsAux s2 ks := by
  intro ks
  induction ks with
  | nil => intro _ _ _; rfl
  | cons k rest ih =>
    intro s1 s2 h
    rw [eraseDupsAux, eraseDupsAux, h k]
    cases hk : keyMem s2 k
    · simp only [Bool.false_eq_true, if_false]
      rw [ih (k :: s1) (k :: s2) (keyMemConsCongr s1 s2 k h)]
    · simp only [if_true]
      exact ih s1 s2 h

/-- Helper: merging into an existing entry keeps the key sequence. -/
theorem updateAssocFst : ∀ (seen : List (String × Movie)) (k : String) (m : Movie),
    (updateAssoc seen k m).map Prod.fst = seen.map Prod.fst := by
  intro seen k m
  induction seen with
  | nil => rfl
  | cons p rest ih =>
    simp only [updateAssoc, List.map_cons] at *
    rw [ih]
    congr 1
    split
    · rfl
    · rfl

/-- Helper: the keys of the dedup loop are the first-seen keys of the input. -/
theorem dedupGoFst (f : Nat → String) : ∀ (ms : List Movie) (n : Nat)
    (seen : List (String × Movie)),
    (dedupGo f n seen ms).map Prod.fst =
      seen.map Prod.fst ++ eraseDupsAux (seen.map Prod.fst) (ms.map dedupKey) := by
  intro ms
  induction ms with
  | nil => intro n seen; simp [dedupGo, eraseDupsAux]
  | cons m rest ih =>
    intro n seen
    simp only [dedupGo, List.map_cons]
    rw [eraseDupsAux]
    cases hk : keyMem (seen.map Prod.fst) (dedupKey m)
    · have hhk : hasKey seen (dedupKey m) = false := by rw [hasKeyEqKeyMem, hk]
      simp only [hhk, Bool.false_eq_true, if_false]
      rw [ih]
      rw [List.map_append, List.map_cons, List.map_nil]
      rw [eraseDupsCongr (rest.map dedupKey) (seen.map Prod.fst ++ [dedupKey m])
        (dedupKey m :: seen.map Prod.fst) (keyMemSnoc (seen.map Prod.fst) (dedupKey m))]
      simp [List.append_assoc]
    · have hhk : hasKey seen (dedupKey m) = true := by rw [hasKeyEqKeyMem, hk]
      simp only [hhk, if_true]
      rw [ih, updateAssocFst]

/-- Helper: first-seen keys avoid the seed and contain no duplicates. -/
theorem eraseDupsAvoidNodup : ∀ (ks seen : List String),
    (∀ x ∈ eraseDupsAux seen ks, keyMem seen x = false) ∧ (eraseDupsAux seen ks).Nodup := by
  intro ks
  induction ks with
  | nil =>
    intro seen
    exact ⟨fun x hx => absurd hx (List.not_mem_nil x), List.nodup_nil⟩
  | cons k rest ih =>
    intro seen
    rw [eraseDupsAux]
    cases hk : keyMem seen k
    · simp only [Bool.false_eq_true, if_false]
      refine ⟨?_, ?_⟩
      · intro x hx
        rcases List.mem_cons.mp hx with rfl | hx2
        · exact hk
        · have h2 := (ih (k :: seen)).1 x hx2
          simp only [keyMem, List.any_cons, Bool.or_eq_false_iff] at h2
          simpa [keyMem] using h2.2
      · refine List.nodup_cons.mpr ⟨?_, (ih (k :: seen)).2⟩
        intro hkmem
        have h2 := (ih (k :: seen)).1 k hkmem
        simp [keyMem, List.any_cons] at h2
    · simp only [if_true]
      exact ⟨fun x hx => (ih seen).1 x hx, (ih seen).2⟩

/-- Helper: an entry invariant preserved by merging and established at
insertion holds for every entry the dedup loop produces. -/
theorem dedupGoPreserves (P : String × Movie → Prop)
    (hmerge : ∀ (k : String) (ex m : Movie), P (k, ex) → P (k, mergeInto ex m)) :
    ∀ (ms : List Movie) (f : Nat → String),
      (∀ m ∈ ms, ∀ n, P (dedupKey m, regenId f n m)) →
      ∀ (n : Nat) (seen : List (String × Movie)),
        (∀ p ∈ seen, P p) → ∀ p ∈ dedupGo f n seen ms, P p := by
  intro ms
  induction ms with
  | nil =>
    intro f _ n seen hseen p hp
    simp only [dedupGo] at hp
    exact hseen p hp
  | cons m rest ih =>
    intro f hins n seen hseen p hp
    simp only [dedupGo] at hp
    split at hp
    · refine ih f (fun m2 hm2 n2 => hins m2 (List.mem_cons_of_mem _ hm2) n2) n _ ?_ p hp
      intro q hq
      unfold updateAssoc at hq
      rcases List.mem_map.mp hq with ⟨q0, hq0, rfl⟩
      split
      · exact hmerge q0.1 q0.2 m (hseen q0 hq0)
      · exact hseen q0 hq0
    · refine ih f (fun m2 hm2 n2 => hins m2 (List.mem_cons_of_mem _ hm2) n2) (n + 1) _ ?_ p hp
      intro q hq
      rcases List.mem_append.mp hq with hq1 | hq2
      · exact hseen q hq1
      · rw [List.mem_singleton.mp hq2]
        exact hins m (List.mem_cons_self _ _) n

/-- Helper: the link-union step never empties the list or changes its head. -/
theorem addLinkStats (ls : List DownloadLink) (n : DownloadLink) (h : ls ≠ []) :
    addLink ls n ≠ [] ∧ (addLink ls n).head? = ls.head? := by
  unfold addLink
  split
  · exact ⟨h, rfl⟩
  · obtain ⟨a, t, rfl⟩ := List.exists_cons_of_ne_nil h
    exact ⟨by simp, rfl⟩

/-- Helper: link-union folding never empties the list or changes its head. -/
theorem foldlAddLinkStats : ∀ (ns ls : List DownloadLink), ls ≠ [] →
    ns.foldl addLink ls ≠ [] ∧ (ns.foldl addLink ls).head? = ls.head? := by
  intro ns
  induction ns with
  | nil => intro ls h; exact ⟨h, rfl⟩
  | cons n rest ih =>
    intro ls h
    rw [List.foldl_cons]
    obtain ⟨h1, h2⟩ := addLinkStats ls n h
    obtain ⟨h3, h4⟩ := ih (addLink ls n) h1
    exact ⟨h3, h4.trans h2⟩

/-- Helper: merging never changes the canonical record's dedup key once it
has at least one download link (title/year are never overwritten and links
are only appended). -/
theorem mergeIntoKeyStable (ex m : Movie) (h : ex.downloadUrls ≠ []) :
    dedupKey (mergeInto ex m) = dedupKey ex ∧ (mergeInto ex m).downloadUrls ≠ [] := by
  have ht : (mergeInto ex m).title = ex.title := by simp only [mergeInto]
  have hy : (mergeInto ex m).year = ex.year := by simp only [mergeInto]
  have hd : (mergeInto ex m).downloadUrls =
      (if m.downloadUrls.isEmpty then ex.downloadUrls
       else m.downloadUrls.foldl addLink ex.downloadUrls) := by simp only [mergeInto]
  have hstats : (mergeInto ex m).downloadUrls ≠ [] ∧
      (mergeInto ex m).downloadUrls.head? = ex.downloadUrls.head? := by
    rw [hd]
    split
    · exact ⟨h, rfl⟩
    · exact foldlAddLinkStats m.downloadUrls ex.downloadUrls h
  refine ⟨?_, hstats.1⟩
  unfold dedupKey firstDownloadUrl
  rw [ht, hy, hstats.2]

/-- Helper: regenerating the opaque id changes neither key nor links. -/
theorem regenIdFacts (f : Nat → String) (n : Nat) (m : Movie) :
    dedupKey (regenId f n m) = dedupKey m ∧ (regenId f n m).downloadUrls = m.downloadUrls := by
  unfold regenId
  split
  · exact ⟨rfl, rfl⟩
  · exact ⟨rfl, rfl⟩

/-- Helper: the link-union step keeps the no-duplicate-url /
no-duplicate-(quality, format) invariant. -/
theorem addLinkClean (ls : List DownloadLink) (n : DownloadLink) (h : LinksClean ls) :
    LinksClean (addLink ls n) := by
  unfold addLink
  split
  · exact h
  · next hc =>
    rw [LinksClean, List.pairwise_append]
    refine ⟨h, List.pairwise_singleton _ _, ?_⟩
    intro a ha b hb
    rw [List.mem_singleton.mp hb]
    have hnc : ¬ (linkConflict a n = true) :=
      fun hcontra => hc (List.any_eq_true.mpr ⟨a, ha, hcontra⟩)
    simp only [linkConflict, decide_eq_true_eq, not_or] at hnc
    exact ⟨hnc.1, hnc.2⟩

/-- Helper: link-union folding keeps the duplicate-freedom invariant. -/
theorem foldlAddLinkClean : ∀ (ns ls : List DownloadLink),
    LinksClean ls → LinksClean (ns.foldl addLink ls) := by
  intro ns
  induction ns with
  | nil => intro ls h; exact h
  | cons n rest ih =>
    intro ls h
    rw [List.foldl_cons]
    exact ih (addLink ls n) (addLinkClean ls n h)

/-- Helper: merging keeps the duplicate-freedom invariant of the canonical
record's links, whatever the incoming record carries. -/
theorem mergeIntoClean (ex m : Movie) (h : LinksClean ex.downloadUrls) :
    LinksClean (mergeInto ex m).downloadUrls := by
  have hd : (mergeInto ex m).downloadUrls =
      (if m.downloadUrls.isEmpty then ex.downloadUrls
       else m.downloadUrls.foldl addLink ex.downloadUrls) := by simp only [mergeInto]
  rw [hd]
  split
  · exact h
  · exact foldlAddLinkClean m.downloadUrls ex.downloadUrls h

/-- C5, amended.  Unconditionally, the canonical keys of the Deduplicator's
output are exactly the input keys in first-seen order, without repetition
(order preservation).  When every input record has at least one download
link, the recomputed keys of the output records coincide with those stored
keys, so no two output records share a deduplication key.  And when every
input record's own `downloadLinks` are free of repeated urls and repeated
(quality, format) pairs, every output record's `downloadLinks` are too —
merging alone never introduces duplicates, but it does not clean a
first-seen record that already carried them (see the counterexample). -/
theorem C5_amended (f : Nat → String) (ms : List Movie) :
    ((dedupPairs f ms).map Prod.fst = firstSeenKeys (ms.map dedupKey) ∧
     ((dedupPairs f ms).map Prod.fst).Nodup) ∧
    ((∀ m ∈ ms, m.downloadUrls ≠ []) →
      (deduplicateMovies f ms).map dedupKey = firstSeenKeys (ms.map dedupKey) ∧
      ((deduplicateMovies f ms).map dedupKey).Nodup) ∧
    ((∀ m ∈ ms, LinksClean m.downloadUrls) →
      ∀ m ∈ deduplicateMovies f ms, LinksClean m.downloadUrls) := by
  have hfst : (dedupPairs f ms).map Prod.fst = firstSeenKeys (ms.map dedupKey) := by
    unfold dedupPairs firstSeenKeys
    rw [dedupGoFst]
    simp
  have hnodup : ((dedupPairs f ms).map Prod.fst).Nodup := by
    rw [hfst]
    unfold firstSeenKeys
    exact (eraseDupsAvoidNodup (ms.map dedupKey) []).2
  refine ⟨⟨hfst, hnodup⟩, ?_, ?_⟩
  · intro hne
    have hstab := dedupGoPreserves (fun p => dedupKey p.2 = p.1 ∧ p.2.downloadUrls ≠ [])
      (fun k ex m hp => by
        obtain ⟨hk, hne2⟩ := hp
        obtain ⟨hkeq, hne3⟩ := mergeIntoKeyStable ex m hne2
        exact ⟨hkeq.trans hk, hne3⟩)
      ms f
      (fun m hm n => by
        show dedupKey (regenId f n m) = dedupKey m ∧ (regenId f n m).downloadUrls ≠ []
        obtain ⟨hkeq, hdl⟩ := regenIdFacts f n m
        refine ⟨hkeq, ?_⟩
        rw [hdl]
        exact hne m hm)
      0 [] (fun p hp => absurd hp (List.not_mem_nil p))
    have hmapeq : (deduplicateMovies f ms).map dedupKey = (dedupPairs f ms).map Prod.fst := by
      unfold deduplicateMovies
      rw [List.map_map]
      exact List.map_congr_left (fun p hp => (hstab p hp).1)
    rw [hmapeq]
    exact ⟨hfst, hnodup⟩
  · intro hclean
    have hstab := dedupGoPreserves (fun p => LinksClean p.2.downloadUrls)
      (fun k ex m hp => mergeIntoClean ex m hp)
      ms f
      (fun m hm n => by
        show LinksClean (regenId f n m).downloadUrls
        rw [(regenIdFacts f n m).2]
        exact hclean m hm)
      0 [] (fun p hp => absurd hp (List.not_mem_nil p))
    intro m hm
    rcases List.mem_map.mp hm with ⟨p, hp, rfl⟩
    exact hstab p hp

/-- Witness for C5 on concrete records satisfying both provisos. -/
theorem C5_amended_witness :
    ((deduplicateMovies sampleFreshId [alphaRecord, alphaMirrorRecord]).map dedupKey).Nodup ∧
    (∀ m ∈ deduplicateMovies sampleFreshId [alphaRecord, alphaMirrorRecord],
      LinksClean m.downloadUrls) :=
  ⟨((C5_amended sampleFreshId [alphaRecord, alphaMirrorRecord]).2.1 (by decide)).2,
   (C5_amended sampleFreshId [alphaRecord, alphaMirrorRecord]).2.2 (by decide)⟩

end DFLIX
